import Mathlib

set_option maxHeartbeats 1000000

/-!
Verification development for the codex-client transport layer
(`src/transport.ts`) and turn-aggregation client (`src/client.ts`).

The embedding is shallow: the buffered line framer of `readLoop` is a pure
function on character lists, the `StdioTransport` correlation state is a
record acted on by an event step function, the `CodexClient.runTurn`
aggregation is a fold over validated notification payloads, and the
`Set`-of-handlers dispatch of `emitMessage` is an iterator over a slot list
that may be mutated by the handlers being invoked (matching ECMAScript
`Set` iteration: deleted entries are skipped, entries appended during
iteration are visited).
-/

/-! ### Framer: the buffered newline splitter of `StdioTransport.readLoop`

`readLoop` appends each decoded chunk to `buffer`, then repeatedly takes
everything before the first newline as a line (dropping the newline), and
finally, at end of input, flushes a non-empty trimmed remainder.  `procBuf`
computes the complete lines and the leftover of one buffer, exactly the
effect of the inner `while (newline >= 0)` loop on `buffer`. -/

def procBuf : List Char → List (List Char) × List Char
  | [] => ([], [])
  | c :: rest =>
    let pr := procBuf rest
    if c = '\n' then ([] :: pr.1, pr.2)
    else
      match pr.1 with
      | [] => ([], c :: pr.2)
      | l :: ls => ((c :: l) :: ls, pr.2)

/-- How the line splitter acts on a concatenation: the leftover of the first
part is prepended to the first line of the second part. -/
def combineSplit (x y : List (List Char) × List Char) : List (List Char) × List Char :=
  match y.1 with
  | [] => (x.1, x.2 ++ y.2)
  | l :: ls => (x.1 ++ (x.2 ++ l) :: ls, y.2)

/-- The chunk loop of `readLoop`: each chunk is appended to the carried
buffer and all complete lines are extracted; returns all lines produced and
the final buffer. -/
def feedAll (buf : List Char) : List (List Char) → List (List Char) × List Char
  | [] => ([], buf)
  | c :: cs =>
    let pr := procBuf (buf ++ c)
    let rest := feedAll pr.2 cs
    (pr.1 ++ rest.1, rest.2)

/-- Whitespace as removed by JavaScript `String.prototype.trim` (the ASCII
part, which is all the wire format produces). -/
def isWsChar (c : Char) : Bool :=
  c = ' ' || c = '\t' || c = '\n' || c = '\r' || c = '\x0b' || c = '\x0c'

def trimChars (s : List Char) : List Char :=
  ((s.dropWhile isWsChar).reverse.dropWhile isWsChar).reverse

/-- `readLoop` trims each extracted line and hands non-empty ones to
`handleLine`. -/
def emitLines (ls : List (List Char)) : List (List Char) :=
  (ls.map trimChars).filter (fun l => decide (l ≠ []))

/-- The full sequence of lines handed to `handleLine` by `readLoop` when the
stream delivers the given chunks and then ends: complete lines as they are
framed, plus the final flush of a non-empty trimmed remainder. -/
def readLoopLines (chunks : List (List Char)) : List (List Char) :=
  let fr := feedAll [] chunks
  let tl := trimChars fr.2
  emitLines fr.1 ++ (if tl = [] then [] else [tl])

/-! ### Transport: the `StdioTransport` correlation state machine

State components mirror the fields of `StdioTransport`: the `pending`
`Map` (association list in key-insertion order, keys unique as in a JS
`Map`), the `nextRequestId` counter, the `closed` and `closeInitiated`
flags.  In addition the model logs the observable effects: `settled`
records every resolution/rejection of a request promise in the order it
happens, `messages` records every `emitMessage` call and `errors` every
`emitError` call. -/

def getA {K V : Type} [DecidableEq K] : List (K × V) → K → Option V
  | [], _ => none
  | p :: rest, k => if p.1 = k then some p.2 else getA rest k

def setA {K V : Type} [DecidableEq K] : List (K × V) → K → V → List (K × V)
  | [], k, v => [(k, v)]
  | p :: rest, k, v => if p.1 = k then (k, v) :: rest else p :: setA rest k v

def delA {K V : Type} [DecidableEq K] (m : List (K × V)) (k : K) : List (K × V) :=
  m.filter (fun p => decide (p.1 ≠ k))

/-- A peer error object `{code, message}` of a JSON-RPC response. -/
structure ErrObj where
  code : Int
  message : String
deriving DecidableEq

/-- The outcome recorded for one request promise: resolution with the
response result payload, or rejection with an error message. -/
inductive Settlement (α : Type) where
  | resolved (result : Option α)
  | rejected (message : String)
deriving DecidableEq

/-- A parsed JSON-RPC message, as classified by `isJsonRpcResponse` /
`isJsonRpcNotification` (a response has an id and no method, a notification
a method and no id, a request both). -/
inductive MsgL (α : Type) where
  | request (method : String) (id : Nat)
  | response (id : Nat) (result : Option α) (error : Option ErrObj)
  | notif (method : String)
deriving DecidableEq

/-- External events acting on one `StdioTransport` instance.
`line raw parsed` is one framed line reaching `handleLine`, with `parsed`
the outcome of `JSON.parse` (`none` = the parse threw).  `timerFired id` is
the deadline timer of request `id` firing; since every code path that
removes a pending entry also calls `clearTimeout`, the timer can only fire
while the entry is still present, which the step function checks.
`exited code` is the subprocess exit observation of the constructor
(`process.exited.then`), `exitObserveFailed` its `.catch` branch, and
`streamError` is `process.stdout` erroring, which only aborts `readLoop`
(the constructor attaches no handler to `readLoopPromise`). -/
inductive TEvent (α : Type) where
  | send (method : String)
  | line (raw : String) (parsed : Option (MsgL α))
  | timerFired (id : Nat)
  | exited (code : Int)
  | exitObserveFailed (message : String)
  | streamError
  | close
deriving DecidableEq

structure TState (α : Type) where
  pending : List (Nat × String)
  nextRequestId : Nat
  closed : Bool
  closeInitiated : Bool
  settled : List (Nat × Settlement α)
  messages : List (MsgL α)
  errors : List String
deriving DecidableEq

def initTState (α : Type) : TState α :=
  { pending := [], nextRequestId := 0, closed := false, closeInitiated := false
    settled := [], messages := [], errors := [] }

def exitMessage (code : Int) : String :=
  "codex app-server exited unexpectedly with code " ++ toString code

/-- `formatJsonRpcError` of `transport.ts`. -/
def formatJsonRpcErrorL (e : ErrObj) : String :=
  toString e.code ++ ": " ++ e.message

/-- `resolvePending`: look up the pending entry for the response id; if
absent do nothing, otherwise clear its timer, delete it, and reject with
the formatted peer error when the response carries one, else resolve with
the result payload. -/
def resolvePendingL {α : Type} (st : TState α) (id : Nat) (result : Option α)
    (error : Option ErrObj) : TState α :=
  match getA st.pending id with
  | none => st
  | some _ =>
    let st1 := { st with pending := delA st.pending id }
    match error with
    | some e => { st1 with settled := st1.settled ++ [(id, .rejected (formatJsonRpcErrorL e))] }
    | none => { st1 with settled := st1.settled ++ [(id, .resolved result)] }

/-- `rejectAllPending`: iterate the pending map in order, clearing each
timer, rejecting each promise with the given error and deleting the
entry. -/
def rejectAllPendingL {α : Type} (st : TState α) (message : String) : TState α :=
  { st with pending := [],
            settled := st.settled ++ st.pending.map (fun p => (p.1, Settlement.rejected message)) }

/-- `handleLine`: a parse failure emits an error and returns; otherwise a
message that is a response is routed through `resolvePending`, and every
parsed message is emitted to the message handlers. -/
def handleLineL {α : Type} (st : TState α) (raw : String) (parsed : Option (MsgL α)) : TState α :=
  match parsed with
  | none => { st with errors := st.errors ++ ["Failed to parse JSON-RPC line: " ++ raw] }
  | some msg =>
    let st1 := match msg with
      | .response id result error => resolvePendingL st id result error
      | _ => st
    { st1 with messages := st1.messages ++ [msg] }

/-- One step of the transport.  `send m` is `request(m, …)`: allocate the
next id, start the timer, store the pending entry, then `send` the framed
request — which throws `"transport is closed"` when the transport is
closed, upon which the `catch` clears the timer, deletes the entry just
stored and rejects the promise.  `close` is `close()`: a no-op when already
closed, otherwise it marks the transport closed, drains, and rejects any
remaining pending entries with `"transport closed"`. -/
def stepT {α : Type} (st : TState α) : TEvent α → TState α
  | .send method =>
    let id := st.nextRequestId
    let withEntry := { st with nextRequestId := id + 1, pending := setA st.pending id method }
    if st.closed then
      { withEntry with pending := delA withEntry.pending id,
                       settled := withEntry.settled ++ [(id, .rejected "transport is closed")] }
    else withEntry
  | .line raw parsed => handleLineL st raw parsed
  | .timerFired id =>
    match getA st.pending id with
    | some method =>
      { st with pending := delA st.pending id,
                settled := st.settled ++ [(id, .rejected ("Request timed out for method " ++ method))] }
    | none => st
  | .exited code =>
    if st.closeInitiated then st
    else
      let st1 := rejectAllPendingL st (exitMessage code)
      { st1 with errors := st1.errors ++ [exitMessage code] }
  | .exitObserveFailed message =>
    let st1 := rejectAllPendingL st message
    { st1 with errors := st1.errors ++ [message] }
  | .streamError => st
  | .close =>
    if st.closed then st
    else rejectAllPendingL { st with closeInitiated := true, closed := true } "transport closed"

def runT {α : Type} (events : List (TEvent α)) : TState α :=
  events.foldl stepT (initTState α)

def pendingIds {α : Type} (st : TState α) : List Nat :=
  st.pending.map Prod.fst

/-- Registry invariant of a live transport: pending correlation ids are
pairwise distinct and below the id counter. -/
def InvT {α : Type} (st : TState α) : Prop :=
  (pendingIds st).Nodup ∧ ∀ p ∈ st.pending, p.1 < st.nextRequestId

/-- The event of one framed response line arriving. -/
def respEvent (α : Type) (raw : String) (k : Nat) (result : Option α)
    (err : Option ErrObj) : TEvent α :=
  .line raw (some (.response k result err))

/-- The settlement `resolvePending` produces for a matching response. -/
def respSettlement {α : Type} (result : Option α) (err : Option ErrObj) : Settlement α :=
  match err with
  | some e => .rejected (formatJsonRpcErrorL e)
  | none => .resolved result

/-! ### Client: the `runTurn` aggregation of `CodexClient`

`handleMessage` validates each notification payload and re-emits it on an
internal channel; the three listeners `runTurn` registers fold the
validated payloads into per-turn maps (JS `Map`s, so insertion-ordered,
modelled by the same association lists).  `CNotif` is a validated payload
as delivered to those listeners; notifications whose payloads fail
validation, or that the listeners ignore, are `otherNotif`. -/

structure ItemL where
  type : String
  id : String
  text : Option String
deriving DecidableEq

structure TurnL where
  id : String
  status : String
  errorMsg : Option String
deriving DecidableEq

inductive CNotif where
  | itemCompleted (threadId turnId : String) (item : ItemL)
  | agentDelta (threadId turnId itemId text : String)
  | diffUpdated (threadId turnId diff : String)
  | turnCompleted (threadId : String) (turn : TurnL)
  | otherNotif
deriving DecidableEq

structure CompletedTurnL where
  turn : TurnL
  items : List ItemL
  agentMessage : String
  diff : Option String
deriving DecidableEq

/-- The three maps owned by one `runTurn` call. -/
structure AggState where
  itemsByTurn : List (String × List ItemL)
  diffByTurn : List (String × String)
  agentByTurn : List (String × List (String × String))
deriving DecidableEq

def emptyAgg : AggState := { itemsByTurn := [], diffByTurn := [], agentByTurn := [] }

/-- `byItem.set(id, current + text)` with `current = byItem.get(id) ?? ""`. -/
def seedAgent (m : List (String × String)) (itemId text : String) : List (String × String) :=
  setA m itemId (((getA m itemId).getD "") ++ text)

/-- The `onItemCompleted` listener: append the item to this turn's list; if
it is an agent message, also fold its final text (or `""` when the `text`
field is not a string) into the per-item accumulated text map. -/
def onItemCompletedL (a : AggState) (turnId : String) (item : ItemL) : AggState :=
  let items := ((getA a.itemsByTurn turnId).getD []) ++ [item]
  let a1 := { a with itemsByTurn := setA a.itemsByTurn turnId items }
  if item.type = "agentMessage" then
    let byItem := (getA a1.agentByTurn turnId).getD []
    { a1 with agentByTurn := setA a1.agentByTurn turnId (seedAgent byItem item.id (item.text.getD "")) }
  else a1

/-- The `onAgentDelta` listener. -/
def onAgentDeltaL (a : AggState) (turnId itemId text : String) : AggState :=
  let byItem := (getA a.agentByTurn turnId).getD []
  { a with agentByTurn := setA a.agentByTurn turnId (seedAgent byItem itemId text) }

/-- The `onDiff` listener: each update supersedes the previous diff. -/
def onDiffL (a : AggState) (turnId diff : String) : AggState :=
  { a with diffByTurn := setA a.diffByTurn turnId diff }

def stepAgg (a : AggState) : CNotif → AggState
  | .itemCompleted _ turnId item => onItemCompletedL a turnId item
  | .agentDelta _ turnId itemId text => onAgentDeltaL a turnId itemId text
  | .diffUpdated _ turnId diff => onDiffL a turnId diff
  | _ => a

/-- The loop condition of `extractAgentMessage`:
`item.type === "agentMessage" && typeof item.text === "string" && item.text.length`. -/
def isNonemptyAgentText (it : ItemL) : Bool :=
  decide (it.type = "agentMessage") &&
    (match it.text with
     | some t => decide (t ≠ "")
     | none => false)

/-- `extractAgentMessage`: the text of the first agent-message item with a
non-empty string text; otherwise, if the accumulated-text map is non-empty,
its values joined in insertion order; otherwise `""`. -/
def extractAgentMessageL (items : List ItemL) (deltas : List (String × String)) : String :=
  match items.find? isNonemptyAgentText with
  | some it => it.text.getD ""
  | none => if deltas.isEmpty then "" else String.join (deltas.map Prod.snd)

/-- `runTurn` after the `turn/start` response assigned `turnId`: the
listeners fold each arriving notification into the aggregation state until
the first `turn/completed` notification whose turn id matches;
a terminal status `"failed"` becomes a rejection carrying the peer error
message (or `"Turn failed"`), any other terminal status assembles the
`CompletedTurn`; if no terminal notification ever arrives the wait times
out. -/
def runTurnAggregate (turnId : String) : AggState → List CNotif → Except String CompletedTurnL
  | _, [] => .error ("Timed out waiting for turn completion: " ++ turnId)
  | a, ev :: rest =>
    match ev with
    | .turnCompleted _ turn =>
      if turn.id = turnId then
        if turn.status = "failed" then .error (turn.errorMsg.getD "Turn failed")
        else
          let items := (getA a.itemsByTurn turnId).getD []
          .ok { turn := turn
                items := items
                agentMessage := extractAgentMessageL items ((getA a.agentByTurn turnId).getD [])
                diff := getA a.diffByTurn turnId }
      else runTurnAggregate turnId (stepAgg a ev) rest
    | _ => runTurnAggregate turnId (stepAgg a ev) rest

def runTurnModel (turnId : String) (events : List CNotif) : Except String CompletedTurnL :=
  runTurnAggregate turnId emptyAgg events

/-! Direct per-turn views of a notification sequence, used to state what
`runTurn` assembles. -/

/-- The notifications preceding the first matching `turn/completed`, and
that terminal turn, when one exists. -/
def preTerminal (turnId : String) : List CNotif → Option (List CNotif × TurnL)
  | [] => none
  | ev :: rest =>
    match ev with
    | .turnCompleted _ turn =>
      if turn.id = turnId then some ([], turn)
      else (preTerminal turnId rest).map (fun pr => (ev :: pr.1, pr.2))
    | _ => (preTerminal turnId rest).map (fun pr => (ev :: pr.1, pr.2))

/-- The completed items observed for one turn id, in arrival order. -/
def turnItems (turnId : String) (events : List CNotif) : List ItemL :=
  events.filterMap fun ev =>
    match ev with
    | .itemCompleted _ t item => if t = turnId then some item else none
    | _ => none

/-- The diff payloads observed for one turn id, in arrival order. -/
def turnDiffs (turnId : String) (events : List CNotif) : List String :=
  events.filterMap fun ev =>
    match ev with
    | .diffUpdated _ t d => if t = turnId then some d else none
    | _ => none

/-- How one notification advances the per-item accumulated text of one
turn: streamed deltas and the final texts of completed agent-message items
both append to the entry of their item id. -/
def agentMapStep (turnId : String) (m : List (String × String)) : CNotif → List (String × String)
  | .agentDelta _ t i txt => if t = turnId then seedAgent m i txt else m
  | .itemCompleted _ t item =>
    if t = turnId then
      if item.type = "agentMessage" then seedAgent m item.id (item.text.getD "") else m
    else m
  | _ => m

def turnAgentMap (turnId : String) (events : List CNotif) (m0 : List (String × String)) :
    List (String × String) :=
  events.foldl (agentMapStep turnId) m0

/-- The agent-message string as the spec describes the (amended) behaviour:
the final text of the first agent-message item carrying a non-empty string
text; otherwise the accumulated per-item texts joined in first-observation
order, when any entries were accumulated; otherwise `""`. -/
def specAgentMessage (items : List ItemL) (deltas : List (String × String)) : String :=
  match (items.find? isNonemptyAgentText).bind (fun it => it.text) with
  | some t => t
  | none => if deltas = [] then "" else String.join (deltas.map Prod.snd)

/-- The agent-message value prescribed by the claim as frozen: the final
text of the first item of kind `agentMessage`, whenever such an item
exists. -/
def firstAgentMessageTextClaim (items : List ItemL) : Option String :=
  (items.find? (fun it => decide (it.type = "agentMessage"))).map (fun it => it.text.getD "")

/-- Concrete notification sequence separating the code from the claim: a
streamed delta for item `j`, then a completed agent-message item `i` whose
final text is empty, then the terminal `turn/completed`. -/
def cexEvents : List CNotif :=
  [ .agentDelta "th" "T" "j" "x",
    .itemCompleted "th" "T" { type := "agentMessage", id := "i", text := some "" },
    .turnCompleted "th" { id := "T", status := "completed", errorMsg := none } ]

/-! ### Router: `Set`-of-handlers dispatch of `emitMessage`

Handlers are identified by `Nat`; a handler's effect on the registry when
invoked (calls to `onMessage` subscribing new handlers, or to returned
unsubscribers) is its list of registry operations.  A JS `Set` is a list of
slots in insertion order where `delete` empties a slot (iterators skip it)
and `add` of an absent value appends a live slot (iterators reach it even
mid-iteration); `add` of a present value is a no-op. -/

inductive RegOp where
  | add (h : Nat)
  | remove (h : Nat)
deriving DecidableEq

def applyOp (slots : List (Nat × Bool)) : RegOp → List (Nat × Bool)
  | .add h => if slots.any (fun s => decide (s.1 = h) && s.2) then slots else slots ++ [(h, true)]
  | .remove h => slots.map (fun s => if s.1 = h then (s.1, false) else s)

def applyOps (slots : List (Nat × Bool)) (ops : List RegOp) : List (Nat × Bool) :=
  ops.foldl applyOp slots

/-- The handlers a fresh iteration would deliver to: live slots in order. -/
def liveIds (slots : List (Nat × Bool)) : List Nat :=
  (slots.filter (fun s => s.2)).map Prod.fst

/-- The `for (const handler of this.messageHandlers)` loop of
`emitMessage`, invoking each live slot in order while applying the
invoked handler's registry operations; `fuel` bounds the number of slots
examined (handlers may keep appending). Returns the final registry and the
invocation log. -/
def emitGo (behave : Nat → List RegOp) :
    Nat → List (Nat × Bool) → Nat → List Nat → Option (List (Nat × Bool) × List Nat)
  | 0, _, _, _ => none
  | fuel + 1, slots, i, log =>
    match slots[i]? with
    | none => some (slots, log)
    | some s =>
      if s.2 then emitGo behave fuel (applyOps slots (behave s.1)) (i + 1) (log ++ [s.1])
      else emitGo behave fuel slots (i + 1) log

def emitRun (behave : Nat → List RegOp) (fuel : Nat) (slots : List (Nat × Bool)) :
    Option (List (Nat × Bool) × List Nat) :=
  emitGo behave fuel slots 0 []

/-- `Set.delete h` as it acts on the slot list. -/
def markDead (c : Nat) (slots : List (Nat × Bool)) : List (Nat × Bool) :=
  slots.map (fun s => if s.1 = c then (s.1, false) else s)

/-- Sequential dispatch of several notifications (arrival order), each via
one `emitMessage` iteration over the registry left by the previous one. -/
def dispatchList (behave : Nat → List RegOp) (fuel : Nat) :
    List (Nat × Bool) → List Nat → Option (List (Nat × Bool) × List (Nat × List Nat))
  | slots, [] => some (slots, [])
  | slots, m :: ms =>
    match emitGo behave fuel slots 0 [] with
    | none => none
    | some (slots2, log) =>
      match dispatchList behave fuel slots2 ms with
      | none => none
      | some (slots3, rest) => some (slots3, (m, log) :: rest)

/-- A handler that subscribes one new handler while being invoked. -/
def addBehave : Nat → List RegOp := fun h => if h = 0 then [RegOp.add 1] else []

/-- The last element of a list when there is one, a default otherwise:
the last `turn/diff/updated` payload wins. -/
def lastOr {B : Type} (l : List B) (dflt : Option B) : Option B :=
  match l.getLast? with
  | some d => some d
  | none => dflt

/-! ### Framer lemmas -/

theorem procBuf_append (a b : List Char) :
    procBuf (a ++ b) = combineSplit (procBuf a) (procBuf b) := by
  induction a with
  | nil =>
    rcases hpb : procBuf b with ⟨lb, rb⟩
    cases lb <;> simp [procBuf, combineSplit, hpb]
  | cons c a ih =>
    rcases hpa : procBuf a with ⟨la, ra⟩
    rcases hpb : procBuf b with ⟨lb, rb⟩
    rw [hpa] at ih
    by_cases hc : c = '\n'
    · subst hc
      cases lb <;> simp [procBuf, combineSplit, ih, hpa, hpb]
    · cases la <;> cases lb <;> simp [procBuf, combineSplit, ih, hpa, hpb, hc]

theorem procBuf_no_newline (s : List Char) (h : '\n' ∉ s) : procBuf s = ([], s) := by
  induction s with
  | nil => rfl
  | cons c s ih =>
    have hc : ¬ c = '\n' := by
      intro e; exact h (e ▸ List.mem_cons_self c s)
    have hs : '\n' ∉ s := fun hm => h (List.mem_cons_of_mem _ hm)
    simp [procBuf, ih hs, hc]

theorem procBuf_rest_no_newline (s : List Char) : '\n' ∉ (procBuf s).2 := by
  induction s with
  | nil => simp [procBuf]
  | cons c s ih =>
    by_cases hc : c = '\n'
    · subst hc; simpa [procBuf] using ih
    · rcases hps : procBuf s with ⟨ls, r⟩
      rw [hps] at ih
      cases ls with
      | nil =>
        simp only [procBuf, hps, hc, if_false]
        intro hm
        rcases List.mem_cons.mp hm with h1 | h2
        · exact hc h1.symm
        · exact ih h2
      | cons l ls =>
        simpa [procBuf, hps, hc] using ih

theorem feedAll_eq_procBuf (chunks : List (List Char)) :
    ∀ buf, '\n' ∉ buf → feedAll buf chunks = procBuf (buf ++ chunks.flatten) := by
  induction chunks with
  | nil =>
    intro buf h
    simp [feedAll, procBuf_no_newline buf h]
  | cons c cs ih =>
    intro buf h
    rcases hpr : procBuf (buf ++ c) with ⟨ls, r⟩
    have hr : '\n' ∉ r := by
      have hx := procBuf_rest_no_newline (buf ++ c)
      rw [hpr] at hx; exact hx
    have hrec := ih r hr
    rcases hpj : procBuf cs.flatten with ⟨lj, rj⟩
    have h2 : procBuf (r ++ cs.flatten) = combineSplit ([], r) (lj, rj) := by
      rw [procBuf_append, procBuf_no_newline r hr, hpj]
    have h3 : procBuf (buf ++ (c :: cs).flatten) = combineSplit (ls, r) (lj, rj) := by
      have : buf ++ (c :: cs).flatten = (buf ++ c) ++ cs.flatten := by
        simp [List.append_assoc]
      rw [this, procBuf_append, hpr, hpj]
    rw [h3]
    simp only [feedAll, hpr, hrec, h2]
    cases lj <;> simp [combineSplit]

/-- Claim C3: feeding the read loop a byte stream split at arbitrary chunk
boundaries (including mid-line) produces the same sequence of framed units,
in the same order, as feeding it as one contiguous chunk — hence also the
same decoded messages, for any decoding function applied per unit; the
non-empty trimmed remainder at end-of-input is flushed as one final unit by
`readLoopLines` on both sides. -/
theorem framer_chunk_split_invariant (chunks : List (List Char)) :
    readLoopLines chunks = readLoopLines [chunks.flatten] ∧
    ∀ {β : Type} (decode : List Char → β),
      (readLoopLines chunks).map decode = (readLoopLines [chunks.flatten]).map decode := by
  have h1 : readLoopLines chunks = readLoopLines [chunks.flatten] := by
    unfold readLoopLines
    rw [feedAll_eq_procBuf chunks [] (by simp),
        feedAll_eq_procBuf [chunks.flatten] [] (by simp)]
    simp
  exact ⟨h1, fun decode => by rw [h1]⟩

/-! ### Association-list (JS `Map`) lemmas -/

theorem getA_setA_self {K V : Type} [DecidableEq K] (m : List (K × V)) (k : K) (v : V) :
    getA (setA m k v) k = some v := by
  induction m with
  | nil => simp [setA, getA]
  | cons p rest ih =>
    by_cases h : p.1 = k <;> simp [setA, getA, h, ih]

theorem getA_setA_ne {K V : Type} [DecidableEq K] (m : List (K × V)) (k k2 : K) (v : V)
    (h : k2 ≠ k) : getA (setA m k v) k2 = getA m k2 := by
  have h2 : ¬ (k = k2) := fun e => h e.symm
  induction m with
  | nil => simp [setA, getA, h2]
  | cons p rest ih =>
    by_cases hp : p.1 = k
    · simp [setA, getA, hp, h2]
    · simp [setA, getA, hp, ih]

theorem getA_delA_self {K V : Type} [DecidableEq K] (m : List (K × V)) (k : K) :
    getA (delA m k) k = none := by
  induction m with
  | nil => simp [delA, getA]
  | cons p rest ih =>
    by_cases h : p.1 = k <;> simp [delA, List.filter, getA, h] <;> simpa [delA] using ih

theorem getA_delA_ne {K V : Type} [DecidableEq K] (m : List (K × V)) (k k2 : K)
    (h : k2 ≠ k) : getA (delA m k) k2 = getA m k2 := by
  induction m with
  | nil => simp [delA, getA]
  | cons p rest ih =>
    by_cases hp : p.1 = k
    · have hcons : delA (p :: rest) k = delA rest k := by
        simp [delA, List.filter, hp]
      have hne : ¬ (p.1 = k2) := by rw [hp]; exact fun e => h e.symm
      rw [hcons, ih]
      simp [getA, hne]
    · have hcons : delA (p :: rest) k = p :: delA rest k := by
        simp [delA, List.filter, hp]
      rw [hcons]
      by_cases hp2 : p.1 = k2 <;> simp [getA, hp2, ih]

theorem getA_eq_none_iff {K V : Type} [DecidableEq K] (m : List (K × V)) (k : K) :
    getA m k = none ↔ k ∉ m.map Prod.fst := by
  induction m with
  | nil => simp [getA]
  | cons p rest ih =>
    by_cases h : p.1 = k
    · simp [getA, h]
    · have h2 : ¬ (k = p.1) := fun e => h e.symm
      simp [getA, h, ih, h2]

theorem setA_of_getA_none {K V : Type} [DecidableEq K] (m : List (K × V)) (k : K) (v : V)
    (h : getA m k = none) : setA m k v = m ++ [(k, v)] := by
  induction m with
  | nil => simp [setA]
  | cons p rest ih =>
    by_cases hp : p.1 = k
    · simp [getA, hp] at h
    · simp [getA, hp] at h
      simp [setA, hp, ih h]

theorem delA_of_getA_none {K V : Type} [DecidableEq K] (m : List (K × V)) (k : K)
    (h : getA m k = none) : delA m k = m := by
  induction m with
  | nil => simp [delA]
  | cons p rest ih =>
    by_cases hp : p.1 = k
    · simp [getA, hp] at h
    · simp [getA, hp] at h
      simp [delA, List.filter, hp] at ih ⊢
      simpa [delA] using ih h

theorem delA_append {K V : Type} [DecidableEq K] (m1 m2 : List (K × V)) (k : K) :
    delA (m1 ++ m2) k = delA m1 k ++ delA m2 k := by
  simp [delA, List.filter_append]

theorem delA_setA_fresh {K V : Type} [DecidableEq K] (m : List (K × V)) (k : K) (v : V)
    (h : getA m k = none) : delA (setA m k v) k = m := by
  rw [setA_of_getA_none m k v h, delA_append, delA_of_getA_none m k h]
  simp [delA, List.filter]

theorem mem_of_mem_delA {K V : Type} [DecidableEq K] (m : List (K × V)) (k : K)
    (p : K × V) (hp : p ∈ delA m k) : p ∈ m :=
  (List.mem_filter.mp hp).1

theorem mapfst_delA_sublist {K V : Type} [DecidableEq K] (m : List (K × V)) (k : K) :
    ((delA m k).map Prod.fst).Sublist (m.map Prod.fst) :=
  ((List.filter_sublist m).map Prod.fst)

theorem mem_of_mem_setA {K V : Type} [DecidableEq K] (m : List (K × V)) (k : K) (v : V)
    (p : K × V) (hp : p ∈ setA m k v) : p ∈ m ∨ p = (k, v) := by
  induction m with
  | nil => simp [setA] at hp; simp [hp]
  | cons q rest ih =>
    by_cases hq : q.1 = k
    · simp [setA, hq] at hp
      rcases hp with h1 | h2
      · right; simp [h1]
      · left; simp [h2]
    · simp [setA, hq] at hp
      rcases hp with h1 | h2
      · left; simp [h1]
      · rcases ih h2 with h3 | h4
        · left; simp [h3]
        · right; exact h4

/-! ### Transport invariant -/

theorem invT_delA {α : Type} (st : TState α) (k : Nat) (h : InvT st) :
    InvT { st with pending := delA st.pending k } := by
  rcases h with ⟨hnd, hb⟩
  constructor
  · exact hnd.sublist (mapfst_delA_sublist st.pending k)
  · intro p hp
    exact hb p (mem_of_mem_delA st.pending k p hp)

theorem invT_step {α : Type} (st : TState α) (ev : TEvent α) (h : InvT st) :
    InvT (stepT st ev) := by
  rcases h with ⟨hnd, hb⟩
  cases ev with
  | send method =>
    have hfresh : getA st.pending st.nextRequestId = none := by
      rw [getA_eq_none_iff]
      intro hmem
      rcases List.mem_map.mp hmem with ⟨p, hp, hfst⟩
      have := hb p hp
      omega
    have hset : setA st.pending st.nextRequestId method
        = st.pending ++ [(st.nextRequestId, method)] :=
      setA_of_getA_none _ _ _ hfresh
    by_cases hc : st.closed
    · have hdel : delA (setA st.pending st.nextRequestId method) st.nextRequestId
          = st.pending := delA_setA_fresh _ _ _ hfresh
      have hpend : (stepT st (.send method)).pending = st.pending := by
        simp [stepT, hc, hdel]
      have hnext : (stepT st (.send method)).nextRequestId = st.nextRequestId + 1 := by
        simp [stepT, hc]
      refine ⟨?_, ?_⟩
      · unfold pendingIds
        rw [hpend]
        exact hnd
      · intro p hp
        rw [hpend] at hp
        rw [hnext]
        have := hb p hp
        omega
    · have hpend : (stepT st (.send method)).pending
          = st.pending ++ [(st.nextRequestId, method)] := by
        simp [stepT, hc, hset]
      have hnext : (stepT st (.send method)).nextRequestId = st.nextRequestId + 1 := by
        simp [stepT, hc]
      refine ⟨?_, ?_⟩
      · unfold pendingIds
        rw [hpend]
        simp only [List.map_append, List.map_cons, List.map_nil]
        rw [List.nodup_append]
        refine ⟨hnd, List.nodup_singleton _, ?_⟩
        intro x hx hx2
        simp at hx2
        rcases List.mem_map.mp hx with ⟨p, hp, hfst⟩
        have := hb p hp
        omega
      · intro p hp
        rw [hpend] at hp
        rw [hnext]
        rcases List.mem_append.mp hp with h1 | h2
        · have := hb p h1; omega
        · have h3 : p.1 = st.nextRequestId := by
            simp at h2
            simp [h2]
          omega
  | line raw parsed =>
    cases parsed with
    | none => exact ⟨hnd, hb⟩
    | some msg =>
      cases msg with
      | response id result error =>
        simp only [stepT, handleLineL]
        rcases hg : getA st.pending id with _ | m
        · simp only [resolvePendingL, hg]
          exact ⟨hnd, hb⟩
        · have hinv := invT_delA st id ⟨hnd, hb⟩
          rcases hinv with ⟨hnd2, hb2⟩
          simp only [resolvePendingL, hg]
          cases error <;> exact ⟨hnd2, hb2⟩
      | request m id => exact ⟨hnd, hb⟩
      | notif m => exact ⟨hnd, hb⟩
  | timerFired id =>
    simp only [stepT]
    rcases hg : getA st.pending id with _ | m
    · exact ⟨hnd, hb⟩
    · exact invT_delA st id ⟨hnd, hb⟩
  | exited code =>
    by_cases hc : st.closeInitiated
    · simpa [stepT, hc] using ⟨hnd, hb⟩
    · simp [stepT, hc, rejectAllPendingL, InvT, pendingIds]
  | exitObserveFailed message =>
    simp [stepT, rejectAllPendingL, InvT, pendingIds]
  | streamError => exact ⟨hnd, hb⟩
  | close =>
    by_cases hc : st.closed
    · simpa [stepT, hc] using ⟨hnd, hb⟩
    · simp [stepT, hc, rejectAllPendingL, InvT, pendingIds]

theorem invT_runT {α : Type} (events : List (TEvent α)) : InvT (runT events) := by
  have h0 : InvT (initTState α) := by
    constructor <;> simp [initTState, pendingIds]
  suffices h : ∀ st, InvT st → InvT (events.foldl stepT st) from h _ h0
  induction events with
  | nil => intro st h; exact h
  | cons e es ih => intro st h; exact ih _ (invT_step st e h)

/-! ### Transport claim theorems -/

/-- Claim C1: after any sequence of transport events, a response line whose
id is `k` settles exactly the pending request stored under correlation id
`k`: its promise is rejected with the peer error code and message when the
response carries an error payload and resolved with the result payload
otherwise, the entry for `k` is removed, every other pending entry is
untouched, and the message is still emitted to the message handlers. -/
theorem response_settles_exactly_matching {α : Type} (events : List (TEvent α))
    (raw : String) (k : Nat) (m : String) (result : Option α) (err : Option ErrObj)
    (hmem : getA (runT events).pending k = some m) :
    (stepT (runT events) (respEvent α raw k result err)).settled
        = (runT events).settled ++ [(k, respSettlement result err)] ∧
    getA (stepT (runT events) (respEvent α raw k result err)).pending k = none ∧
    (∀ k2, k2 ≠ k →
      getA (stepT (runT events) (respEvent α raw k result err)).pending k2
        = getA (runT events).pending k2) ∧
    (stepT (runT events) (respEvent α raw k result err)).messages
        = (runT events).messages ++ [MsgL.response k result err] := by
  cases err with
  | none =>
    refine ⟨?_, ?_, ?_, ?_⟩
    · simp [stepT, respEvent, handleLineL, resolvePendingL, hmem, respSettlement]
    · simp [stepT, respEvent, handleLineL, resolvePendingL, hmem, getA_delA_self]
    · intro k2 hk2
      simp [stepT, respEvent, handleLineL, resolvePendingL, hmem, getA_delA_ne _ _ _ hk2]
    · simp [stepT, respEvent, handleLineL, resolvePendingL, hmem]
  | some e =>
    refine ⟨?_, ?_, ?_, ?_⟩
    · simp [stepT, respEvent, handleLineL, resolvePendingL, hmem, respSettlement]
    · simp [stepT, respEvent, handleLineL, resolvePendingL, hmem, getA_delA_self]
    · intro k2 hk2
      simp [stepT, respEvent, handleLineL, resolvePendingL, hmem, getA_delA_ne _ _ _ hk2]
    · simp [stepT, respEvent, handleLineL, resolvePendingL, hmem]

theorem response_settles_exactly_matching_witness :
    getA (runT (α := Nat) [.send "ping"]).pending 0 = some "ping" ∧
    (stepT (runT (α := Nat) [.send "ping"]) (respEvent Nat "r" 0 (some 7) none)).settled
        = (runT (α := Nat) [.send "ping"]).settled ++ [(0, respSettlement (some 7) none)] :=
  ⟨by decide,
   (response_settles_exactly_matching [.send "ping"] "r" 0 "ping" (some 7) none (by decide)).1⟩

/-- A line reaching `handleLine` while the pending registry is empty can
settle nothing and leaves the registry empty. -/
theorem line_on_empty_pending {α : Type} (st : TState α) (hp : st.pending = [])
    (raw : String) (parsed : Option (MsgL α)) :
    (stepT st (.line raw parsed)).settled = st.settled ∧
    (stepT st (.line raw parsed)).pending = [] := by
  cases parsed with
  | none => exact ⟨rfl, hp⟩
  | some msg =>
    cases msg with
    | response id result error =>
      refine ⟨?_, ?_⟩ <;> simp [stepT, handleLineL, resolvePendingL, hp, getA]
    | request m id => exact ⟨rfl, hp⟩
    | notif m => exact ⟨rfl, hp⟩

/-- Claim C2 (amended): when the subprocess exit is observed and shutdown
was not caller-initiated, every request pending at that instant is rejected
with the transport-failure error exactly once (the pending ids are pairwise
distinct), the registry is emptied, and any response line arriving
afterwards settles nothing. -/
theorem unexpected_exit_rejects_all_pending {α : Type} (events : List (TEvent α)) (code : Int)
    (hno : (runT events).closeInitiated = false) :
    (stepT (runT events) (.exited code)).pending = [] ∧
    (stepT (runT events) (.exited code)).settled
        = (runT events).settled
          ++ (runT events).pending.map (fun p => (p.1, Settlement.rejected (exitMessage code))) ∧
    (pendingIds (runT events)).Nodup ∧
    (∀ raw parsed,
      (stepT (stepT (runT events) (.exited code)) (.line raw parsed)).settled
          = (stepT (runT events) (.exited code)).settled ∧
      (stepT (stepT (runT events) (.exited code)) (.line raw parsed)).pending = []) := by
  have hp : (stepT (runT events) (.exited code)).pending = [] := by
    simp [stepT, hno, rejectAllPendingL]
  refine ⟨hp, ?_, (invT_runT events).1, ?_⟩
  · simp [stepT, hno, rejectAllPendingL]
  · intro raw parsed
    exact line_on_empty_pending _ hp raw parsed

theorem unexpected_exit_rejects_all_pending_witness :
    (runT (α := Nat) [.send "a", .send "b"]).closeInitiated = false ∧
    (stepT (runT (α := Nat) [.send "a", .send "b"]) (.exited 1)).pending = [] :=
  ⟨by decide, (unexpected_exit_rejects_all_pending [.send "a", .send "b"] 1 (by decide)).1⟩

/-- Claim C2, counterexample to the claim as frozen: a fatal error of the
read stream is not an event the transport reacts to — `readLoop` simply
stops and nothing rejects the pending requests — so declaring the
transport failed through a stream error, with shutdown not
caller-initiated and a request pending, rejects nothing. -/
theorem stream_error_leaves_pending_unrejected :
    (runT (α := Nat) [.send "ping"]).closeInitiated = false ∧
    (runT (α := Nat) [.send "ping"]).pending = [(0, "ping")] ∧
    stepT (runT (α := Nat) [.send "ping"]) .streamError = runT (α := Nat) [.send "ping"] ∧
    (stepT (runT (α := Nat) [.send "ping"]) .streamError).settled = [] := by
  exact ⟨by decide, by decide, rfl, by decide⟩

/-- Claim C6: a deadline firing for pending request `k` rejects it with the
timeout error naming its method and removes it from the registry, leaving
other entries untouched; a response bearing id `k` that arrives afterwards
settles nothing and changes no pending entry. -/
theorem timeout_removes_then_stale_response_noop {α : Type} (events : List (TEvent α))
    (k : Nat) (m : String) (hmem : getA (runT events).pending k = some m) :
    (stepT (runT events) (.timerFired k)).settled
        = (runT events).settled
          ++ [(k, Settlement.rejected ("Request timed out for method " ++ m))] ∧
    getA (stepT (runT events) (.timerFired k)).pending k = none ∧
    (∀ k2, k2 ≠ k →
      getA (stepT (runT events) (.timerFired k)).pending k2
        = getA (runT events).pending k2) ∧
    (∀ raw result err,
      (stepT (stepT (runT events) (.timerFired k)) (respEvent α raw k result err)).settled
          = (stepT (runT events) (.timerFired k)).settled ∧
      (stepT (stepT (runT events) (.timerFired k)) (respEvent α raw k result err)).pending
          = (stepT (runT events) (.timerFired k)).pending) := by
  have hafter : getA (stepT (runT events) (.timerFired k)).pending k = none := by
    simp [stepT, hmem, getA_delA_self]
  refine ⟨?_, hafter, ?_, ?_⟩
  · simp [stepT, hmem]
  · intro k2 hk2
    simp [stepT, hmem, getA_delA_ne _ _ _ hk2]
  · intro raw result err
    generalize hst1 : stepT (runT events) (.timerFired k) = st1 at hafter ⊢
    refine ⟨?_, ?_⟩ <;>
      simp [stepT, respEvent, handleLineL, resolvePendingL, hafter]

theorem timeout_removes_then_stale_response_noop_witness :
    getA (runT (α := Nat) [.send "ping"]).pending 0 = some "ping" ∧
    (stepT (runT (α := Nat) [.send "ping"]) (.timerFired 0)).settled
        = (runT (α := Nat) [.send "ping"]).settled
          ++ [(0, Settlement.rejected ("Request timed out for method " ++ "ping"))] :=
  ⟨by decide,
   (timeout_removes_then_stale_response_noop [.send "ping"] 0 "ping" (by decide)).1⟩

/-- Components of the state other than the `emitError` log never depend on
that log. -/
theorem stepT_ignores_errors {α : Type} (st : TState α) (e2 : List String) (ev : TEvent α) :
    (stepT { st with errors := e2 } ev).pending = (stepT st ev).pending ∧
    (stepT { st with errors := e2 } ev).settled = (stepT st ev).settled ∧
    (stepT { st with errors := e2 } ev).messages = (stepT st ev).messages ∧
    (stepT { st with errors := e2 } ev).nextRequestId = (stepT st ev).nextRequestId ∧
    (stepT { st with errors := e2 } ev).closed = (stepT st ev).closed := by
  cases ev with
  | send m => by_cases h : st.closed <;> simp [stepT, h]
  | line raw parsed =>
    cases parsed with
    | none => simp [stepT, handleLineL]
    | some msg =>
      cases msg with
      | response id result error =>
        rcases hg : getA st.pending id with _ | mm
        · cases error <;> simp [stepT, handleLineL, resolvePendingL, hg]
        · cases error <;> simp [stepT, handleLineL, resolvePendingL, hg]
      | request m id => simp [stepT, handleLineL]
      | notif m => simp [stepT, handleLineL]
  | timerFired id =>
    rcases hg : getA st.pending id with _ | mm <;> simp [stepT, hg]
  | exited code => by_cases h : st.closeInitiated <;> simp [stepT, h, rejectAllPendingL]
  | exitObserveFailed m => simp [stepT, rejectAllPendingL]
  | streamError => simp [stepT]
  | close => by_cases h : st.closed <;> simp [stepT, h, rejectAllPendingL]

/-- Claim C7: a line that fails to parse as JSON only emits an error to the
error handlers; the registries, the settlement history and the message
stream are untouched, and every later event — in particular every
well-formed line — has exactly the effect it would have had without the
malformed line. -/
theorem parse_failure_is_nonfatal {α : Type} (st : TState α) (raw : String) :
    stepT st (.line raw none)
        = { st with errors := st.errors ++ ["Failed to parse JSON-RPC line: " ++ raw] } ∧
    ∀ ev : TEvent α,
      (stepT (stepT st (.line raw none)) ev).pending = (stepT st ev).pending ∧
      (stepT (stepT st (.line raw none)) ev).settled = (stepT st ev).settled ∧
      (stepT (stepT st (.line raw none)) ev).messages = (stepT st ev).messages ∧
      (stepT (stepT st (.line raw none)) ev).nextRequestId = (stepT st ev).nextRequestId ∧
      (stepT (stepT st (.line raw none)) ev).closed = (stepT st ev).closed := by
  refine ⟨rfl, ?_⟩
  intro ev
  exact stepT_ignores_errors st (st.errors ++ ["Failed to parse JSON-RPC line: " ++ raw]) ev

/-- Claim C9: `close()` is idempotent — a second `close()` after a
completed first one finds the transport already closed and returns without
touching the process, the registries or any settled request. -/
theorem close_idempotent {α : Type} (st : TState α) :
    stepT (stepT st .close) .close = stepT st .close := by
  by_cases h : st.closed
  · simp [stepT, h]
  · simp [stepT, h, rejectAllPendingL]

/-- Claim C10: `request()` on a closed transport allocates the next id,
stores a pending entry and starts the timer, but `send` throws
`"transport is closed"` and the `catch` clears the timer, deletes the
entry and rejects the promise with that error: the registry, the message
and error logs and the closed flag are exactly as before, only the id
counter advanced, and the (cleared) timer of the failed request firing
afterwards is impossible to observe — a `timerFired` for that id is a
no-op. -/
theorem request_on_closed_transport_atomic {α : Type} (events : List (TEvent α))
    (method : String) (hclosed : (runT events).closed = true) :
    (stepT (runT events) (.send method)).pending = (runT events).pending ∧
    (stepT (runT events) (.send method)).nextRequestId = (runT events).nextRequestId + 1 ∧
    (stepT (runT events) (.send method)).settled
        = (runT events).settled
          ++ [((runT events).nextRequestId, Settlement.rejected "transport is closed")] ∧
    (stepT (runT events) (.send method)).messages = (runT events).messages ∧
    (stepT (runT events) (.send method)).errors = (runT events).errors ∧
    (stepT (runT events) (.send method)).closed = true ∧
    stepT (stepT (runT events) (.send method)) (.timerFired (runT events).nextRequestId)
        = stepT (runT events) (.send method) := by
  have hfresh : getA (runT events).pending (runT events).nextRequestId = none := by
    rcases invT_runT events with ⟨hnd, hbound⟩
    rw [getA_eq_none_iff]
    intro hmem
    rcases List.mem_map.mp hmem with ⟨p, hp, hfst⟩
    have := hbound p hp
    omega
  have hdel : delA (setA (runT events).pending (runT events).nextRequestId method)
      (runT events).nextRequestId = (runT events).pending :=
    delA_setA_fresh _ _ _ hfresh
  have hpend : (stepT (runT events) (.send method)).pending = (runT events).pending := by
    simp [stepT, hclosed, hdel]
  refine ⟨hpend, ?_, ?_, ?_, ?_, ?_, ?_⟩
  · simp [stepT, hclosed]
  · simp [stepT, hclosed]
  · simp [stepT, hclosed]
  · simp [stepT, hclosed]
  · simp [stepT, hclosed]
  · have hnoop : getA (stepT (runT events) (.send method)).pending
        (runT events).nextRequestId = none := by
      rw [hpend]; exact hfresh
    generalize hst1 : stepT (runT events) (.send method) = st1 at hnoop ⊢
    simp [stepT, hnoop]

theorem request_on_closed_transport_atomic_witness :
    (runT (α := Nat) [.close]).closed = true ∧
    (stepT (runT (α := Nat) [.close]) (.send "x")).pending = (runT (α := Nat) [.close]).pending :=
  ⟨by decide, (request_on_closed_transport_atomic [.close] "x" (by decide)).1⟩

/-! ### Client aggregation lemmas -/

theorem lastOr_cons {B : Type} (d : B) (l : List B) (x : Option B) :
    lastOr (d :: l) x = lastOr l (some d) := by
  cases l with
  | nil => rfl
  | cons e l2 =>
    unfold lastOr
    rw [List.getLast?_cons_cons]
    rcases h : (e :: l2).getLast? with _ | y
    · simp at h
    · rfl

theorem itemsByTurn_stepAgg (a : AggState) (ev : CNotif) (tid : String) :
    (getA (stepAgg a ev).itemsByTurn tid).getD []
      = ((getA a.itemsByTurn tid).getD [])
        ++ (match ev with
            | .itemCompleted _ t item => if t = tid then [item] else []
            | _ => []) := by
  cases ev with
  | itemCompleted th t item =>
    by_cases ht : t = tid
    · subst ht
      by_cases hty : item.type = "agentMessage" <;>
        simp [stepAgg, onItemCompletedL, hty, getA_setA_self]
    · by_cases hty : item.type = "agentMessage" <;>
        simp [stepAgg, onItemCompletedL, hty, getA_setA_ne _ _ _ _ (fun e => ht e.symm), ht]
  | agentDelta th t i txt => simp [stepAgg, onAgentDeltaL]
  | diffUpdated th t d => simp [stepAgg, onDiffL]
  | turnCompleted th tu => simp [stepAgg]
  | otherNotif => simp [stepAgg]

theorem agentByTurn_stepAgg (a : AggState) (ev : CNotif) (tid : String) :
    (getA (stepAgg a ev).agentByTurn tid).getD []
      = agentMapStep tid ((getA a.agentByTurn tid).getD []) ev := by
  cases ev with
  | itemCompleted th t item =>
    by_cases ht : t = tid
    · subst ht
      by_cases hty : item.type = "agentMessage" <;>
        simp [stepAgg, onItemCompletedL, agentMapStep, hty, getA_setA_self]
    · by_cases hty : item.type = "agentMessage" <;>
        simp [stepAgg, onItemCompletedL, agentMapStep, hty, ht,
              getA_setA_ne _ _ _ _ (fun e => ht e.symm)]
  | agentDelta th t i txt =>
    by_cases ht : t = tid
    · subst ht
      simp [stepAgg, onAgentDeltaL, agentMapStep, getA_setA_self]
    · simp [stepAgg, onAgentDeltaL, agentMapStep, ht,
            getA_setA_ne _ _ _ _ (fun e => ht e.symm)]
  | diffUpdated th t d => simp [stepAgg, onDiffL, agentMapStep]
  | turnCompleted th tu => simp [stepAgg, agentMapStep]
  | otherNotif => simp [stepAgg, agentMapStep]

theorem diffByTurn_stepAgg (a : AggState) (ev : CNotif) (tid : String) :
    getA (stepAgg a ev).diffByTurn tid
      = (match ev with
         | .diffUpdated _ t d => if t = tid then some d else getA a.diffByTurn tid
         | _ => getA a.diffByTurn tid) := by
  cases ev with
  | itemCompleted th t item =>
    by_cases hty : item.type = "agentMessage" <;>
      simp [stepAgg, onItemCompletedL, hty]
  | agentDelta th t i txt => simp [stepAgg, onAgentDeltaL]
  | diffUpdated th t d =>
    by_cases ht : t = tid
    · subst ht
      simp [stepAgg, onDiffL, getA_setA_self]
    · simp [stepAgg, onDiffL, ht, getA_setA_ne _ _ _ _ (fun e => ht e.symm)]
  | turnCompleted th tu => simp [stepAgg]
  | otherNotif => simp [stepAgg]

theorem turnItems_cons (tid : String) (ev : CNotif) (l : List CNotif) :
    turnItems tid (ev :: l)
      = (match ev with
         | .itemCompleted _ t item => if t = tid then [item] else []
         | _ => []) ++ turnItems tid l := by
  cases ev with
  | itemCompleted th t item =>
    by_cases ht : t = tid <;> simp [turnItems, ht]
  | agentDelta th t i txt => simp [turnItems]
  | diffUpdated th t d => simp [turnItems]
  | turnCompleted th tu => simp [turnItems]
  | otherNotif => simp [turnItems]

theorem turnDiffs_cons (tid : String) (ev : CNotif) (l : List CNotif) :
    turnDiffs tid (ev :: l)
      = (match ev with
         | .diffUpdated _ t d => if t = tid then [d] else []
         | _ => []) ++ turnDiffs tid l := by
  cases ev with
  | itemCompleted th t item => simp [turnDiffs]
  | agentDelta th t i txt => simp [turnDiffs]
  | diffUpdated th t d =>
    by_cases ht : t = tid <;> simp [turnDiffs, ht]
  | turnCompleted th tu => simp [turnDiffs]
  | otherNotif => simp [turnDiffs]

theorem runTurnAggregate_closed_form (tid : String) :
    ∀ (events : List CNotif) (a : AggState) (pre : List CNotif) (turn : TurnL),
    preTerminal tid events = some (pre, turn) →
    runTurnAggregate tid a events =
      (if turn.status = "failed" then .error (turn.errorMsg.getD "Turn failed")
       else
         .ok { turn := turn
               items := ((getA a.itemsByTurn tid).getD []) ++ turnItems tid pre
               agentMessage := extractAgentMessageL
                 (((getA a.itemsByTurn tid).getD []) ++ turnItems tid pre)
                 (turnAgentMap tid pre ((getA a.agentByTurn tid).getD []))
               diff := lastOr (turnDiffs tid pre) (getA a.diffByTurn tid) }) := by
  intro events
  induction events with
  | nil =>
    intro a pre turn h
    simp [preTerminal] at h
  | cons ev rest ih =>
    intro a pre turn h
    cases ev with
    | turnCompleted th tu =>
      by_cases hid : tu.id = tid
      · simp [preTerminal, hid] at h
        obtain ⟨hpre, hturn⟩ := h
        subst hpre
        subst hturn
        simp [runTurnAggregate, hid, turnItems, turnDiffs, turnAgentMap, lastOr]
      · simp only [preTerminal, hid, if_false, Option.map_eq_some'] at h
        obtain ⟨⟨p1, tu2⟩, hrest, heq⟩ := h
        obtain ⟨hpre, hturn⟩ := Prod.mk.injEq .. ▸ heq
        subst hpre
        subst hturn
        simp only [runTurnAggregate, hid, if_false]
        rw [ih (stepAgg a (.turnCompleted th tu)) p1 tu2 hrest]
        simp [stepAgg, turnItems_cons, turnDiffs_cons, turnAgentMap, agentMapStep]
    | itemCompleted th t item =>
      simp only [preTerminal, Option.map_eq_some'] at h
      obtain ⟨⟨p1, tu2⟩, hrest, heq⟩ := h
      obtain ⟨hpre, hturn⟩ := Prod.mk.injEq .. ▸ heq
      subst hpre
      subst hturn
      simp only [runTurnAggregate]
      rw [ih (stepAgg a (.itemCompleted th t item)) p1 tu2 hrest]
      by_cases hfail : tu2.status = "failed"
      · simp [hfail]
      · simp [hfail, itemsByTurn_stepAgg, agentByTurn_stepAgg, diffByTurn_stepAgg,
              turnItems_cons, turnDiffs_cons, turnAgentMap, List.append_assoc]
    | agentDelta th t i txt =>
      simp only [preTerminal, Option.map_eq_some'] at h
      obtain ⟨⟨p1, tu2⟩, hrest, heq⟩ := h
      obtain ⟨hpre, hturn⟩ := Prod.mk.injEq .. ▸ heq
      subst hpre
      subst hturn
      simp only [runTurnAggregate]
      rw [ih (stepAgg a (.agentDelta th t i txt)) p1 tu2 hrest]
      by_cases hfail : tu2.status = "failed"
      · simp [hfail]
      · simp [hfail, itemsByTurn_stepAgg, agentByTurn_stepAgg, diffByTurn_stepAgg,
              turnItems_cons, turnDiffs_cons, turnAgentMap, List.append_assoc]
    | diffUpdated th t d =>
      simp only [preTerminal, Option.map_eq_some'] at h
      obtain ⟨⟨p1, tu2⟩, hrest, heq⟩ := h
      obtain ⟨hpre, hturn⟩ := Prod.mk.injEq .. ▸ heq
      subst hpre
      subst hturn
      simp only [runTurnAggregate]
      rw [ih (stepAgg a (.diffUpdated th t d)) p1 tu2 hrest]
      by_cases hfail : tu2.status = "failed"
      · simp [hfail]
      · by_cases ht : t = tid
        · simp [hfail, ht, itemsByTurn_stepAgg, agentByTurn_stepAgg, diffByTurn_stepAgg,
                turnItems_cons, turnDiffs_cons, turnAgentMap, lastOr_cons, List.append_assoc]
        · simp [hfail, ht, itemsByTurn_stepAgg, agentByTurn_stepAgg, diffByTurn_stepAgg,
                turnItems_cons, turnDiffs_cons, turnAgentMap, List.append_assoc]
    | otherNotif =>
      simp only [preTerminal, Option.map_eq_some'] at h
      obtain ⟨⟨p1, tu2⟩, hrest, heq⟩ := h
      obtain ⟨hpre, hturn⟩ := Prod.mk.injEq .. ▸ heq
      subst hpre
      subst hturn
      simp only [runTurnAggregate]
      rw [ih (stepAgg a .otherNotif) p1 tu2 hrest]
      simp [stepAgg, turnItems_cons, turnDiffs_cons, turnAgentMap, agentMapStep]

theorem lastOr_none {B : Type} (l : List B) : lastOr l none = l.getLast? := by
  unfold lastOr
  rcases h : l.getLast? with _ | y <;> simp

theorem extractAgentMessageL_eq_spec (items : List ItemL) (deltas : List (String × String)) :
    extractAgentMessageL items deltas = specAgentMessage items deltas := by
  unfold extractAgentMessageL specAgentMessage
  rcases h : items.find? isNonemptyAgentText with _ | it
  · simp [List.isEmpty_iff]
  · have hp := List.find?_some h
    unfold isNonemptyAgentText at hp
    rcases htext : it.text with _ | t
    · rw [htext] at hp
      simp at hp
    · simp [htext]

/-! ### Client claim theorems -/

/-- Claim C4 (amended): when the first `turn/completed` notification for the
awaited turn id carries terminal status `completed`, `runTurn` returns the
completed items observed for that turn id in arrival order; its
`agentMessage` is the final text of the first item of kind `agentMessage`
whose text is a non-empty string when such an item exists, and otherwise
the per-item accumulated texts (streamed deltas plus the final texts seeded
by completed agent-message items) joined in first-observation order when
any were accumulated, and `""` when none were; and its `diff` is the
payload of the last `turn/diff/updated` notification seen for that turn
id, absent when none arrived. -/
theorem run_turn_completed_assembles (turnId : String) (events pre : List CNotif)
    (turn : TurnL) (hpre : preTerminal turnId events = some (pre, turn))
    (hstatus : turn.status = "completed") :
    runTurnModel turnId events = .ok
      { turn := turn
        items := turnItems turnId pre
        agentMessage := specAgentMessage (turnItems turnId pre) (turnAgentMap turnId pre [])
        diff := (turnDiffs turnId pre).getLast? } := by
  have h := runTurnAggregate_closed_form turnId events emptyAgg pre turn hpre
  have hnf : ¬ (turn.status = "failed") := by rw [hstatus]; simp
  simp only [runTurnModel]
  rw [h]
  simp [hnf, emptyAgg, getA, lastOr_none, extractAgentMessageL_eq_spec]

theorem run_turn_completed_assembles_witness :
    preTerminal "T" [CNotif.itemCompleted "th" "T" ⟨"agentMessage", "i", some "hello world"⟩,
                     CNotif.turnCompleted "th" ⟨"T", "completed", none⟩]
      = some ([CNotif.itemCompleted "th" "T" ⟨"agentMessage", "i", some "hello world"⟩],
              ⟨"T", "completed", none⟩) ∧
    runTurnModel "T" [CNotif.itemCompleted "th" "T" ⟨"agentMessage", "i", some "hello world"⟩,
                      CNotif.turnCompleted "th" ⟨"T", "completed", none⟩]
      = .ok
        { turn := ⟨"T", "completed", none⟩
          items := turnItems "T"
            [CNotif.itemCompleted "th" "T" ⟨"agentMessage", "i", some "hello world"⟩]
          agentMessage := specAgentMessage
            (turnItems "T" [CNotif.itemCompleted "th" "T" ⟨"agentMessage", "i", some "hello world"⟩])
            (turnAgentMap "T" [CNotif.itemCompleted "th" "T" ⟨"agentMessage", "i", some "hello world"⟩] [])
          diff := (turnDiffs "T"
            [CNotif.itemCompleted "th" "T" ⟨"agentMessage", "i", some "hello world"⟩]).getLast? } :=
  ⟨by decide,
   run_turn_completed_assembles "T"
     [CNotif.itemCompleted "th" "T" ⟨"agentMessage", "i", some "hello world"⟩,
      CNotif.turnCompleted "th" ⟨"T", "completed", none⟩]
     [CNotif.itemCompleted "th" "T" ⟨"agentMessage", "i", some "hello world"⟩]
     ⟨"T", "completed", none⟩ (by decide) rfl⟩

/-- Claim C4, counterexample to the claim as frozen: a completed turn whose
first (and only) agent-message item has the final text `""` while a
streamed delta `"x"` was observed for another item yields
`agentMessage = "x"`, not the final text `""` of the first item of kind
`agentMessage` that the claim prescribes. -/
theorem agent_message_empty_text_counterexample :
    (runTurnModel "T" cexEvents).toOption.map CompletedTurnL.agentMessage = some "x" ∧
    (runTurnModel "T" cexEvents).toOption.map
        (fun r => firstAgentMessageTextClaim r.items) = some (some "") ∧
    ("x" : String) ≠ "" := by
  refine ⟨by decide, by decide, by decide⟩

/-- Claim C5: when the first `turn/completed` notification for the awaited
turn id carries terminal status `failed`, `runTurn` rejects with the
peer-supplied error message (or the generic `"Turn failed"` when none was
supplied) and never resolves with a value. -/
theorem run_turn_failed_rejects (turnId : String) (events pre : List CNotif)
    (turn : TurnL) (hpre : preTerminal turnId events = some (pre, turn))
    (hstatus : turn.status = "failed") :
    runTurnModel turnId events = .error (turn.errorMsg.getD "Turn failed") ∧
    ∀ r : CompletedTurnL, runTurnModel turnId events ≠ .ok r := by
  have h := runTurnAggregate_closed_form turnId events emptyAgg pre turn hpre
  constructor
  · simp only [runTurnModel]
    rw [h]
    simp [hstatus]
  · intro r hr
    simp only [runTurnModel] at hr
    rw [h] at hr
    simp [hstatus] at hr

theorem run_turn_failed_rejects_witness :
    preTerminal "T" [CNotif.turnCompleted "th" ⟨"T", "failed", some "boom"⟩]
      = some ([], ⟨"T", "failed", some "boom"⟩) ∧
    runTurnModel "T" [CNotif.turnCompleted "th" ⟨"T", "failed", some "boom"⟩]
      = .error ((some "boom").getD "Turn failed") :=
  ⟨by decide,
   (run_turn_failed_rejects "T" [CNotif.turnCompleted "th" ⟨"T", "failed", some "boom"⟩]
     [] ⟨"T", "failed", some "boom"⟩ (by decide) rfl).1⟩

/-! ### Router lemmas -/

theorem liveIds_append (x y : List (Nat × Bool)) :
    liveIds (x ++ y) = liveIds x ++ liveIds y := by
  simp [liveIds, List.filter_append]

theorem emitGo_past_end (behave : Nat → List RegOp) (f : Nat) (slots : List (Nat × Bool))
    (i : Nat) (log : List Nat) (h : slots.length ≤ i) :
    emitGo behave (f + 1) slots i log = some (slots, log) := by
  have hg : slots[i]? = none := List.getElem?_eq_none h
  simp [emitGo, hg]

theorem emitGo_inert_seg (behave : Nat → List RegOp) (f2 : Nat) :
    ∀ (seg rest slots : List (Nat × Bool)) (i : Nat) (log : List Nat),
    slots.drop i = seg ++ rest →
    (∀ s ∈ seg, s.2 = true → behave s.1 = []) →
    emitGo behave (seg.length + f2) slots i log
      = emitGo behave f2 slots (i + seg.length) (log ++ liveIds seg) := by
  intro seg
  induction seg with
  | nil =>
    intro rest slots i log hdrop hinert
    simp [liveIds]
  | cons s seg2 ih =>
    intro rest slots i log hdrop hinert
    have hget : slots[i]? = some s := by
      have h0 : (slots.drop i)[0]? = some s := by rw [hdrop]; simp
      rw [List.getElem?_drop] at h0
      simpa using h0
    have hdrop2 : slots.drop (i + 1) = seg2 ++ rest := by
      have h1 : (slots.drop i).drop 1 = seg2 ++ rest := by rw [hdrop]; rfl
      rw [List.drop_drop] at h1
      simpa [Nat.add_comm] using h1
    have hinert2 : ∀ q ∈ seg2, q.2 = true → behave q.1 = [] :=
      fun q hq => hinert q (List.mem_cons_of_mem s hq)
    have hlen : (s :: seg2).length + f2 = (seg2.length + f2) + 1 := by
      simp [List.length_cons]
      omega
    rw [hlen]
    cases hlive : s.2 with
    | true =>
      have hbv : behave s.1 = [] := hinert s (List.mem_cons_self s seg2) hlive
      have hstep : emitGo behave ((seg2.length + f2) + 1) slots i log
          = emitGo behave (seg2.length + f2) slots (i + 1) (log ++ [s.1]) := by
        simp [emitGo, hget, hlive, hbv, applyOps]
      rw [hstep, ih rest slots (i + 1) (log ++ [s.1]) hdrop2 hinert2]
      have harith : i + (s :: seg2).length = (i + 1) + seg2.length := by
        simp [List.length_cons]
        omega
      have hlog : log ++ liveIds (s :: seg2) = (log ++ [s.1]) ++ liveIds seg2 := by
        simp [liveIds, hlive]
      rw [harith, hlog]
    | false =>
      have hstep : emitGo behave ((seg2.length + f2) + 1) slots i log
          = emitGo behave (seg2.length + f2) slots (i + 1) log := by
        simp [emitGo, hget, hlive]
      rw [hstep, ih rest slots (i + 1) log hdrop2 hinert2]
      have harith : i + (s :: seg2).length = (i + 1) + seg2.length := by
        simp [List.length_cons]
        omega
      have hlog : log ++ liveIds (s :: seg2) = log ++ liveIds seg2 := by
        simp [liveIds, hlive]
      rw [harith, hlog]

theorem emit_inert (behave : Nat → List RegOp) (slots : List (Nat × Bool))
    (h : ∀ s ∈ slots, s.2 = true → behave s.1 = []) :
    emitRun behave (slots.length + 1) slots = some (slots, liveIds slots) := by
  unfold emitRun
  rw [emitGo_inert_seg behave 1 slots [] slots 0 [] (by simp) h]
  rw [show (1 : Nat) = 0 + 1 from rfl,
      emitGo_past_end behave 0 slots (0 + slots.length) ([] ++ liveIds slots) (by omega)]
  simp

theorem dispatch_inert (behave : Nat → List RegOp) (slots : List (Nat × Bool)) (ms : List Nat)
    (h : ∀ s ∈ slots, s.2 = true → behave s.1 = []) :
    dispatchList behave (slots.length + 1) slots ms
      = some (slots, ms.map (fun m => (m, liveIds slots))) := by
  induction ms with
  | nil => simp [dispatchList]
  | cons m ms ih =>
    have he := emit_inert behave slots h
    unfold emitRun at he
    simp [dispatchList, he, ih]

theorem emit_reentrant_add (behave : Nat → List RegOp) (pre post : List (Nat × Bool)) (a b : Nat)
    (ha : behave a = [RegOp.add b]) (hb : behave b = [])
    (hfresh : ∀ s ∈ pre ++ (a, true) :: post, s.2 = true → s.1 ≠ b)
    (hinert : ∀ s ∈ pre ++ post, s.2 = true → behave s.1 = []) :
    emitRun behave (pre.length + post.length + 3) (pre ++ (a, true) :: post)
      = some ((pre ++ (a, true) :: post) ++ [(b, true)],
              (liveIds pre ++ [a]) ++ (liveIds post ++ [b])) := by
  unfold emitRun
  have hfuel : pre.length + post.length + 3 = pre.length + (post.length + 3) := by omega
  rw [hfuel]
  have hinert_pre : ∀ s ∈ pre, s.2 = true → behave s.1 = [] :=
    fun s hs => hinert s (List.mem_append_left post hs)
  rw [emitGo_inert_seg behave (post.length + 3) pre ((a, true) :: post)
        (pre ++ (a, true) :: post) 0 [] (by simp) hinert_pre]
  have hget : (pre ++ (a, true) :: post)[0 + pre.length]? = some (a, true) := by
    have h0 : ((pre ++ (a, true) :: post).drop pre.length)[0]? = some (a, true) := by
      rw [List.drop_left]
      simp
    rw [List.getElem?_drop] at h0
    simpa using h0
  have hany : (pre ++ (a, true) :: post).any (fun s => decide (s.1 = b) && s.2) = false := by
    rw [List.any_eq_false]
    intro s hs
    cases hsl : s.2 with
    | false => simp [hsl]
    | true =>
      have hnb := hfresh s hs hsl
      simp [hsl, hnb]
  have happ : applyOps (pre ++ (a, true) :: post) (behave a)
      = (pre ++ (a, true) :: post) ++ [(b, true)] := by
    rw [ha]
    simp [applyOps, applyOp, hany]
  have hstep : emitGo behave (post.length + 3) (pre ++ (a, true) :: post)
        (0 + pre.length) ([] ++ liveIds pre)
      = emitGo behave (post.length + 2) ((pre ++ (a, true) :: post) ++ [(b, true)])
        (0 + pre.length + 1) (([] ++ liveIds pre) ++ [a]) := by
    rw [show post.length + 3 = (post.length + 2) + 1 from rfl]
    simp only [emitGo, hget]
    simp [happ]
  rw [hstep]
  have hdrop2 : (((pre ++ (a, true) :: post) ++ [(b, true)])).drop (0 + pre.length + 1)
      = (post ++ [(b, true)]) ++ [] := by
    have hsplit : (pre ++ (a, true) :: post) ++ [(b, true)]
        = (pre ++ [(a, true)]) ++ (post ++ [(b, true)]) := by
      simp
    rw [hsplit]
    have hlen : 0 + pre.length + 1 = (pre ++ [(a, true)]).length := by simp
    rw [hlen, List.drop_left]
    simp
  have hinert2 : ∀ s ∈ post ++ [(b, true)], s.2 = true → behave s.1 = [] := by
    intro s hs hsl
    rcases List.mem_append.mp hs with h1 | h2
    · exact hinert s (List.mem_append_right pre h1) hsl
    · simp at h2
      subst h2
      exact hb
  have hpostlen : (post ++ [(b, true)]).length = post.length + 1 := by simp
  have hfuel2 : post.length + 2 = (post ++ [(b, true)]).length + 1 := by omega
  rw [hfuel2]
  rw [emitGo_inert_seg behave 1 (post ++ [(b, true)]) []
        ((pre ++ (a, true) :: post) ++ [(b, true)]) (0 + pre.length + 1)
        (([] ++ liveIds pre) ++ [a]) hdrop2 hinert2]
  have hslotslen : ((pre ++ (a, true) :: post) ++ [(b, true)]).length
      = pre.length + post.length + 2 := by
    simp
    omega
  have hlen2 : ((pre ++ (a, true) :: post) ++ [(b, true)]).length
      ≤ 0 + pre.length + 1 + (post ++ [(b, true)]).length := by omega
  rw [show (1 : Nat) = 0 + 1 from rfl, emitGo_past_end behave 0 _ _ _ hlen2]
  simp [liveIds_append, liveIds]

theorem emit_reentrant_remove (behave : Nat → List RegOp) (pre post : List (Nat × Bool))
    (a c : Nat) (ha : behave a = [RegOp.remove c])
    (hinert : ∀ s ∈ pre ++ post, s.2 = true → behave s.1 = []) :
    emitRun behave (pre.length + post.length + 2) (pre ++ (a, true) :: post)
      = some (markDead c (pre ++ (a, true) :: post),
              (liveIds pre ++ [a]) ++ liveIds (markDead c post)) := by
  unfold emitRun
  have hfuel : pre.length + post.length + 2 = pre.length + (post.length + 2) := by omega
  rw [hfuel]
  have hinert_pre : ∀ s ∈ pre, s.2 = true → behave s.1 = [] :=
    fun s hs => hinert s (List.mem_append_left post hs)
  rw [emitGo_inert_seg behave (post.length + 2) pre ((a, true) :: post)
        (pre ++ (a, true) :: post) 0 [] (by simp) hinert_pre]
  have hget : (pre ++ (a, true) :: post)[0 + pre.length]? = some (a, true) := by
    have h0 : ((pre ++ (a, true) :: post).drop pre.length)[0]? = some (a, true) := by
      rw [List.drop_left]
      simp
    rw [List.getElem?_drop] at h0
    simpa using h0
  have happ : applyOps (pre ++ (a, true) :: post) (behave a)
      = markDead c (pre ++ (a, true) :: post) := by
    rw [ha]
    rfl
  have hstep : emitGo behave (post.length + 2) (pre ++ (a, true) :: post)
        (0 + pre.length) ([] ++ liveIds pre)
      = emitGo behave (post.length + 1) (markDead c (pre ++ (a, true) :: post))
        (0 + pre.length + 1) (([] ++ liveIds pre) ++ [a]) := by
    rw [show post.length + 2 = (post.length + 1) + 1 from rfl]
    simp only [emitGo, hget]
    simp [happ]
  rw [hstep]
  have hdrop2 : (markDead c (pre ++ (a, true) :: post)).drop (0 + pre.length + 1)
      = markDead c post ++ [] := by
    have hsplit : markDead c (pre ++ (a, true) :: post)
        = markDead c (pre ++ [(a, true)]) ++ markDead c post := by
      unfold markDead
      simp
    rw [hsplit]
    have hlen : 0 + pre.length + 1 = (markDead c (pre ++ [(a, true)])).length := by
      unfold markDead
      simp
    rw [hlen, List.drop_left]
    simp
  have hinert2 : ∀ s ∈ markDead c post, s.2 = true → behave s.1 = [] := by
    intro s hs hsl
    unfold markDead at hs
    rcases List.mem_map.mp hs with ⟨q, hq, heq⟩
    by_cases hqc : q.1 = c
    · rw [if_pos hqc] at heq
      rw [← heq] at hsl
      simp at hsl
    · rw [if_neg hqc] at heq
      rw [← heq]
      refine hinert q (List.mem_append_right pre hq) ?_
      rw [heq]
      exact hsl
  have hmdlen : (markDead c post).length = post.length := by
    unfold markDead
    simp
  have hfuel2 : post.length + 1 = (markDead c post).length + 1 := by omega
  rw [hfuel2]
  rw [emitGo_inert_seg behave 1 (markDead c post) []
        (markDead c (pre ++ (a, true) :: post)) (0 + pre.length + 1)
        (([] ++ liveIds pre) ++ [a]) hdrop2 hinert2]
  have hslotslen : (markDead c (pre ++ (a, true) :: post)).length
      = pre.length + post.length + 1 := by
    unfold markDead
    simp
    omega
  have hlen2 : (markDead c (pre ++ (a, true) :: post)).length
      ≤ 0 + pre.length + 1 + (markDead c post).length := by omega
  rw [show (1 : Nat) = 0 + 1 from rfl, emitGo_past_end behave 0 _ _ _ hlen2]
  simp

/-! ### Router claim theorems -/

/-- Claim C8, counterexample to the claim as frozen: with handler `0` the
only subscriber, whose invocation subscribes the new handler `1`
(`addBehave`), dispatching one notification invokes `0` and then also `1` —
the `for…of` iteration over the handler `Set` reaches the entry appended
during the iteration, so the newly registered subscriber does receive the
notification already being dispatched, which the claim forbids. -/
theorem reentrant_add_receives_inflight :
    emitRun addBehave 3 [(0, true)] = some ([(0, true), (1, true)], [0, 1]) ∧
    1 ∉ liveIds [(0, true)] ∧ (1 : Nat) ∈ [0, 1] := by
  refine ⟨by decide, by decide, by decide⟩

/-- Claim C8 (amended): (i) every notification is delivered, in arrival
order, to every handler subscribed at the time of dispatch, in subscription
order, both for a single dispatch and across a sequence of notifications,
when the invoked handlers do not mutate the registry; (ii) a handler that
subscribes a new, not-yet-subscribed handler while being invoked leaves the
delivery order of all other handlers intact, but the new subscriber is
appended to the iteration and does receive the notification already being
dispatched, as the last invocation; (iii) a handler that unsubscribes a
handler while being invoked never corrupts the delivery order of the
remaining handlers: already-visited handlers keep their invocation, the
removed handler is skipped if not yet visited, and the rest are invoked in
their original order. -/
theorem router_delivery_amended :
    (∀ (behave : Nat → List RegOp) (slots : List (Nat × Bool)),
       (∀ s ∈ slots, s.2 = true → behave s.1 = []) →
       emitRun behave (slots.length + 1) slots = some (slots, liveIds slots)) ∧
    (∀ (behave : Nat → List RegOp) (slots : List (Nat × Bool)) (ms : List Nat),
       (∀ s ∈ slots, s.2 = true → behave s.1 = []) →
       dispatchList behave (slots.length + 1) slots ms
         = some (slots, ms.map (fun m => (m, liveIds slots)))) ∧
    (∀ (behave : Nat → List RegOp) (pre post : List (Nat × Bool)) (a b : Nat),
       behave a = [RegOp.add b] → behave b = [] →
       (∀ s ∈ pre ++ (a, true) :: post, s.2 = true → s.1 ≠ b) →
       (∀ s ∈ pre ++ post, s.2 = true → behave s.1 = []) →
       emitRun behave (pre.length + post.length + 3) (pre ++ (a, true) :: post)
         = some ((pre ++ (a, true) :: post) ++ [(b, true)],
                 (liveIds pre ++ [a]) ++ (liveIds post ++ [b]))) ∧
    (∀ (behave : Nat → List RegOp) (pre post : List (Nat × Bool)) (a c : Nat),
       behave a = [RegOp.remove c] →
       (∀ s ∈ pre ++ post, s.2 = true → behave s.1 = []) →
       emitRun behave (pre.length + post.length + 2) (pre ++ (a, true) :: post)
         = some (markDead c (pre ++ (a, true) :: post),
                 (liveIds pre ++ [a]) ++ liveIds (markDead c post))) :=
  ⟨emit_inert, dispatch_inert, emit_reentrant_add, emit_reentrant_remove⟩

theorem router_delivery_amended_witness :
    emitRun addBehave (([] : List (Nat × Bool)).length + ([] : List (Nat × Bool)).length + 3)
        (([] : List (Nat × Bool)) ++ (0, true) :: ([] : List (Nat × Bool)))
      = some ((([] : List (Nat × Bool)) ++ (0, true) :: ([] : List (Nat × Bool))) ++ [(1, true)],
              (liveIds [] ++ [0]) ++ (liveIds [] ++ [1])) ∧
    dispatchList (fun _ => []) ([(5, true)].length + 1) [(5, true)] [0, 1]
      = some ([(5, true)], [0, 1].map (fun m => (m, liveIds [(5, true)]))) :=
  ⟨router_delivery_amended.2.2.1 addBehave [] [] 0 1 (by decide) (by decide)
     (by decide) (by decide),
   router_delivery_amended.2.1 (fun _ => []) [(5, true)] [0, 1] (by decide)⟩
